import Mathlib

/-!
Verification of the thread-pool web server (src/src/main.rs).

The program is a fixed-size thread pool: `ThreadPool::new(size)` asserts
`size > 0`, creates an mpsc channel, wraps the receiver in `Arc<Mutex<..>>`
and spawns `size` workers with ids `0..size`.  `execute` boxes a closure,
wraps it as `Message::NewJob` and `send`s it (unwrapping the result).
`Drop for ThreadPool` first sends one `Message::Terminate` per worker, then
iterates the workers in order, `take`s each `thread` handle and joins it if
it was present.  Each worker thread loops: it locks the mutex, `recv`s one
message (the `MutexGuard` is a temporary dropped at the end of that `let`
statement), then either runs the job and loops, or breaks on `Terminate`.
`handle_connection` reads bytes into a zero-filled buffer and serves
`hello.html` with a 200 status exactly when the buffer starts with
`b"GET / HTTP/1.1\r\n"`, and `404.html` with a 404 status otherwise.

The shallow embedding below follows that source.  Closures are opaque, so a
`Job` is represented by an identifying token; threads are modelled by their
observable events (spawn, send, join) and by explicit scheduling choices
where interleaving matters.
-/

namespace RustServer

/-- `type Job = Box<dyn FnOnce() + Send + 'static>`: a one-shot unit of work.
The closure body is opaque, so a job is represented by an identifying token. -/
abbrev Job := Nat

/-- `enum Message { NewJob(Job), Terminate }`. -/
inductive Message : Type where
  | NewJob (job : Job)
  | Terminate
deriving DecidableEq

/-- A `thread::JoinHandle<()>`; its contents are opaque. -/
abbrev ThreadHandle := Unit

/-- `struct Worker { id: usize, thread: Option<thread::JoinHandle<()>> }`. -/
structure Worker : Type where
  id : Nat
  thread : Option ThreadHandle
deriving DecidableEq

/-- `struct ThreadPool { workers: Vec<Worker>, sender: mpsc::Sender<Message> }`.
The sender endpoint carries no state of its own; the channel it feeds is
modelled by the separate `Channel` state below. -/
structure ThreadPool : Type where
  workers : List Worker
deriving DecidableEq

/-- The `mpsc::channel` of `Message`s: a FIFO queue, together with whether the
receiving half is still alive (it dies when every worker holding the
`Arc<Mutex<Receiver>>` has exited and dropped it). -/
structure Channel : Type where
  queue : List Message
  receiverAlive : Bool
deriving DecidableEq

/-- `mpsc::Sender::send`: appends the message to the FIFO queue without
blocking; it returns an error exactly when the receiver has been dropped. -/
def Channel.send (ch : Channel) (m : Message) : Except Unit Channel :=
  if ch.receiverAlive then Except.ok { ch with queue := ch.queue ++ [m] }
  else Except.error ()

/-- `mpsc::Receiver::recv` as called under the mutex: removes and returns the
head of the FIFO queue; `none` models blocking on an empty queue. -/
def Channel.receive (ch : Channel) : Option (Message × Channel) :=
  match ch.queue with
  | [] => none
  | m :: rest => some (m, { ch with queue := rest })

/-- Observable thread-lifecycle events of the pool. -/
inductive Event : Type where
  | spawn (id : Nat)
  | sendTerminate
  | join (id : Nat)
deriving DecidableEq

/-- `Worker::new(id, receiver)`: spawns the worker thread and stores its
handle, so a fresh worker always holds `some` handle. -/
def Worker.new (id : Nat) : Worker :=
  { id := id, thread := some () }

/-- `ThreadPool::new(size)` together with its trace of spawn events.
`assert!(size > 0)` runs before anything else: on failure (`none`) no
channel is created and no thread is spawned, so the trace is empty.
Otherwise the loop `for id in 0..size` pushes `Worker::new(id, ..)`,
spawning one thread per id, before `new` returns. -/
def ThreadPool.newTraced (size : Nat) : Option ThreadPool × List Event :=
  if 0 < size then
    (some { workers := (List.range size).map Worker.new },
     (List.range size).map Event.spawn)
  else (none, [])

/-- `ThreadPool::new(size)`: the pool itself (`none` models the panic). -/
def ThreadPool.new (size : Nat) : Option ThreadPool :=
  (ThreadPool.newTraced size).1

/-- `ThreadPool::execute(&self, f)`: boxes `f`, wraps it as `NewJob`, sends it
on the channel and unwraps the result (`Except.error` models the panic on a
failed send).  It takes `&self`, returns as soon as the send completes, and
never touches `workers` or runs the job. -/
def ThreadPool.execute (p : ThreadPool) (ch : Channel) (f : Job) :
    Except Unit (ThreadPool × Channel) :=
  match ch.send (Message.NewJob f) with
  | Except.ok ch2 => Except.ok (p, ch2)
  | Except.error e => Except.error e

/-- `Drop for ThreadPool`: the first loop (`for _ in &self.workers`) sends one
`Terminate` per worker; the second loop visits the workers in vector order,
`take`s each `thread` handle (leaving `None`) and joins it when it was
`Some`.  The result is the pool after drop and the ordered event trace. -/
def ThreadPool.dropTraced (p : ThreadPool) : ThreadPool × List Event :=
  ({ workers := p.workers.map (fun w => { w with thread := none }) },
   p.workers.map (fun _ => Event.sendTerminate)
     ++ p.workers.filterMap (fun w => w.thread.map (fun _ => Event.join w.id)))

/-- The outcome of one iteration of the worker loop's `match`. -/
inductive StepResult : Type where
  | run (job : Job)
  | stop
deriving DecidableEq

/-- The `match message` in the worker loop body: `NewJob(job)` runs the job,
`Terminate` breaks out of the loop.  These are its only two arms. -/
def workerStep : Message → StepResult
  | Message.NewJob j => StepResult.run j
  | Message.Terminate => StepResult.stop

/-- The worker loop, given the stream of messages this worker receives: it
runs each `NewJob` synchronously and continues, and exits permanently at the
first `Terminate`.  The result is the list of jobs executed, in order. -/
def workerRun : List Message → List Job
  | [] => []
  | m :: ms =>
    match workerStep m with
    | StepResult.run j => j :: workerRun ms
    | StepResult.stop => []

/-- Serialized receives through the mutex-guarded receiver: `ws` records, in
order, which worker wins the lock for each successive receive.  Each receive
pops exactly the FIFO head and hands it to that worker alone; an empty queue
blocks (ends the trace).  Returns the delivery list and the final channel. -/
def deliveries (ch : Channel) : List Nat → List (Nat × Message) × Channel
  | [] => ([], ch)
  | w :: ws =>
    match Channel.receive ch with
    | none => ([], ch)
    | some (m, ch2) =>
      ((w, m) :: (deliveries ch2 ws).1, (deliveries ch2 ws).2)

/-- The phase of one worker thread inside its loop. -/
inductive Phase : Type where
  | waiting
  | locked
  | running (job : Job)
  | stopped
deriving DecidableEq

/-- The shared state of the pool's worker threads: who currently holds the
mutex around the receiver, the channel, and each worker's phase (indexed by
worker id). -/
structure Sys : Type where
  lockHolder : Option Nat
  chan : Channel
  phases : List Phase
deriving DecidableEq

/-- `receiver.lock()`: worker `w` acquires the mutex, available only when no
one holds it and `w` is waiting at the top of its loop. -/
def Sys.acquire (s : Sys) (w : Nat) : Option Sys :=
  if s.lockHolder = none ∧ s.phases[w]? = some Phase.waiting then
    some { s with lockHolder := some w, phases := s.phases.set w Phase.locked }
  else none

/-- The rest of the statement `let message = receiver.lock().unwrap().recv().unwrap();`
for worker `w`: while holding the lock, pop one message from the queue.  The
`MutexGuard` is a temporary of that `let` statement, so the lock is released
at the end of the statement — before the `match` arm runs the job.  `NewJob`
puts `w` in `running`; `Terminate` puts `w` in `stopped` (the `break`). -/
def Sys.recvStep (s : Sys) (w : Nat) : Option Sys :=
  if s.lockHolder = some w ∧ s.phases[w]? = some Phase.locked then
    match s.chan.receive with
    | none => none
    | some (m, ch2) =>
      some { lockHolder := none
             chan := ch2
             phases := s.phases.set w
               (match m with
                | Message.NewJob j => Phase.running j
                | Message.Terminate => Phase.stopped) }
  else none

/-- `job()` returns: worker `w` finishes its current job and loops back to
waiting on the receiver. -/
def Sys.finishJob (s : Sys) (w : Nat) : Option Sys :=
  match s.phases[w]? with
  | some (Phase.running _) => some { s with phases := s.phases.set w Phase.waiting }
  | _ => none

/-- `b"GET / HTTP/1.1\r\n"` as bytes. -/
def getBytes : List Nat :=
  [71, 69, 84, 32, 47, 32, 72, 84, 84, 80, 47, 49, 46, 49, 13, 10]

/-- The decision in `handle_connection`: the status line and file name chosen
from `buffer.starts_with(b"GET / HTTP/1.1\r\n")`.  `buffer` is the byte
buffer after `stream.read` (zero-filled past the bytes read, as in the
source's `[0; 1024]`). -/
def handleDecision (buffer : List Nat) : String × String :=
  if getBytes.isPrefixOf buffer then ("HTTP/1.1 200 OK\r\n\r\n", "hello.html")
  else ("HTTP/1.1 404 NOT FOUND\r\n\r\n", "404.html")

/-- `handle_connection`, with filesystem reads abstracted by `readFile`: the
response written to the stream is the chosen status line followed by the
chosen file's contents. -/
def handle_connection (readFile : String → String) (buffer : List Nat) : String :=
  (handleDecision buffer).1 ++ readFile (handleDecision buffer).2

/-- The worker id of a join event, if it is one. -/
def joinId : Event → Option Nat
  | Event.join i => some i
  | _ => none

lemma new_some_iff (size : Nat) (p : ThreadPool) :
    ThreadPool.new size = some p ↔
      0 < size ∧ p = { workers := (List.range size).map Worker.new } := by
  unfold ThreadPool.new ThreadPool.newTraced
  by_cases hpos : 0 < size <;> simp [hpos, eq_comm]

/-- C1: `ThreadPool::new(size)` fails (panics) exactly when `size = 0`, and a
failed construction has an empty event trace — in particular no `spawn`
event — so no worker thread is leaked. -/
theorem new_zero_panics_before_spawn (size : Nat) :
    ((ThreadPool.newTraced size).1 = none ↔ size = 0) ∧
    ((ThreadPool.newTraced size).1 = none → (ThreadPool.newTraced size).2 = []) := by
  unfold ThreadPool.newTraced
  by_cases hpos : 0 < size
  · simp [hpos]
    omega
  · simp [hpos]
    omega

/-- Witness for C1 at `size = 0`: construction fails and the trace is empty. -/
theorem new_zero_panics_before_spawn_witness :
    (ThreadPool.newTraced 0).1 = none ∧ (ThreadPool.newTraced 0).2 = [] :=
  ⟨(new_zero_panics_before_spawn 0).1.mpr rfl,
   (new_zero_panics_before_spawn 0).2 ((new_zero_panics_before_spawn 0).1.mpr rfl)⟩

/-- C7: the worker loop has exactly two transitions — `NewJob j` runs `j` and
returns to waiting (the loop continues on the remaining messages), and
`Terminate` exits the loop permanently — and the jobs a worker executes never
include anything delivered after its first `Terminate`. -/
theorem worker_loop_transitions :
    (∀ m : Message,
        (∃ j, m = Message.NewJob j ∧ workerStep m = StepResult.run j) ∨
        (m = Message.Terminate ∧ workerStep m = StepResult.stop)) ∧
    (∀ (j : Job) (ms : List Message),
        workerRun (Message.NewJob j :: ms) = j :: workerRun ms) ∧
    (∀ ms : List Message, workerRun (Message.Terminate :: ms) = []) ∧
    (∀ (ms tl : List Message),
        workerRun (ms ++ Message.Terminate :: tl) =
          workerRun (ms ++ [Message.Terminate])) := by
  refine ⟨?_, ?_, ?_, ?_⟩
  · intro m
    cases m with
    | NewJob j => exact Or.inl ⟨j, rfl, rfl⟩
    | Terminate => exact Or.inr ⟨rfl, rfl⟩
  · intro j ms
    rfl
  · intro ms
    rfl
  · intro ms tl
    induction ms with
    | nil => rfl
    | cons m ms ih =>
      cases m with
      | NewJob j => simp [workerRun, workerStep, ih]
      | Terminate => rfl

/-- Witness for C7: a worker that receives a job, a terminate, then another
job runs only the first job. -/
theorem worker_loop_transitions_witness :
    workerRun (Message.NewJob 1 :: [Message.Terminate, Message.NewJob 2]) =
      1 :: workerRun [Message.Terminate, Message.NewJob 2] :=
  worker_loop_transitions.2.1 1 [Message.Terminate, Message.NewJob 2]

/-- C2: for positive `size`, construction succeeds with exactly `size`
workers, the trace is exactly one spawn per id `0..size` emitted before `new`
returns, `execute` never changes the worker list, and drop preserves the
number of workers — so the count fixed at construction never changes. -/
theorem new_spawns_size_workers (size : Nat) (p : ThreadPool)
    (h : ThreadPool.new size = some p) :
    p.workers.length = size ∧
    (ThreadPool.newTraced size).2 = (List.range size).map Event.spawn ∧
    (∀ (ch : Channel) (f : Job) (q : ThreadPool) (ch2 : Channel),
        p.execute ch f = Except.ok (q, ch2) → q = p) ∧
    p.dropTraced.1.workers.length = size := by
  obtain ⟨hpos, hp⟩ := (new_some_iff size p).mp h
  subst hp
  refine ⟨by simp, ?_, ?_, ?_⟩
  · unfold ThreadPool.newTraced
    simp [hpos]
  · intro ch f q ch2 hex
    unfold ThreadPool.execute Channel.send at hex
    cases ha : ch.receiverAlive <;> simp [ha] at hex
    exact hex.1.symm
  · simp [ThreadPool.dropTraced]

/-- Witness for C2 at `size = 2`: the constructed pool has two workers. -/
theorem new_spawns_size_workers_witness :
    (⟨[Worker.new 0, Worker.new 1]⟩ : ThreadPool).workers.length = 2 :=
  (new_spawns_size_workers 2 ⟨[Worker.new 0, Worker.new 1]⟩ (by decide)).1

/-- C3: in a freshly constructed pool the worker ids, read off in vector
order, are exactly `0, 1, ..., size-1`: unique, 0-indexed, and the worker at
position `i` has id `i`. -/
theorem worker_ids_zero_indexed (size : Nat) (p : ThreadPool)
    (h : ThreadPool.new size = some p) :
    p.workers.map Worker.id = List.range size ∧
    (p.workers.map Worker.id).Nodup ∧
    (∀ i (hi : i < p.workers.length), (p.workers.get ⟨i, hi⟩).id = i) := by
  obtain ⟨hpos, hp⟩ := (new_some_iff size p).mp h
  subst hp
  have hid : Worker.id ∘ Worker.new = fun i => i := rfl
  have hmap : (((List.range size).map Worker.new).map Worker.id) = List.range size := by
    rw [List.map_map, hid, List.map_id']
  refine ⟨hmap, ?_, ?_⟩
  · rw [hmap]
    exact List.nodup_range size
  · intro i hi
    simp [List.get_eq_getElem, Worker.new]

/-- Witness for C3 at `size = 2`: ids in order are `[0, 1]`. -/
theorem worker_ids_zero_indexed_witness :
    (⟨[Worker.new 0, Worker.new 1]⟩ : ThreadPool).workers.map Worker.id =
      List.range 2 :=
  (worker_ids_zero_indexed 2 ⟨[Worker.new 0, Worker.new 1]⟩ (by decide)).1

/-- C4: `execute(f)` appends `NewJob f` to the shared FIFO queue and returns
(the job is enqueued, not run, and the pool is returned unchanged) when the
receiver is alive; when every receiver has been dropped the send fails and
`execute` panics (`Except.error`), signalling use of a torn-down pool. -/
theorem execute_enqueues_or_panics (p : ThreadPool) (ch : Channel) (f : Job) :
    (ch.receiverAlive = true →
        p.execute ch f =
          Except.ok (p, { ch with queue := ch.queue ++ [Message.NewJob f] })) ∧
    (ch.receiverAlive = false → p.execute ch f = Except.error ()) := by
  constructor <;> intro ha <;> simp [ThreadPool.execute, Channel.send, ha]

/-- Witness for C4: on a live channel, executing job `5` enqueues `NewJob 5`. -/
theorem execute_enqueues_or_panics_witness :
    ThreadPool.execute ⟨[]⟩ ⟨[], true⟩ 5 =
      Except.ok ((⟨[]⟩ : ThreadPool), (⟨[Message.NewJob 5], true⟩ : Channel)) :=
  (execute_enqueues_or_panics ⟨[]⟩ ⟨[], true⟩ 5).1 rfl

lemma map_const_terminate (l : List Worker) :
    l.map (fun _ => Event.sendTerminate) =
      List.replicate l.length Event.sendTerminate := by
  induction l with
  | nil => rfl
  | cons w t ih => simp [List.replicate, ih]

lemma filterMap_joinId_replicate (n : Nat) :
    List.filterMap joinId (List.replicate n Event.sendTerminate) = [] := by
  induction n with
  | zero => rfl
  | succ n ih => simp [List.replicate, List.filterMap_cons, joinId, ih]

lemma fresh_joins (l : List Nat) :
    List.filterMap (fun w => w.thread.map (fun _ => Event.join w.id))
      (l.map Worker.new) = l.map Event.join := by
  induction l with
  | nil => rfl
  | cons i t ih => simp [Worker.new, List.filterMap_cons, ih]

lemma filterMap_joinId_joins (l : List Nat) :
    List.filterMap joinId (l.map Event.join) = l := by
  induction l with
  | nil => rfl
  | cons i t ih => simp [List.filterMap_cons, joinId, ih]

lemma taken_joins (ws : List Worker) :
    List.filterMap (fun w => w.thread.map (fun _ => Event.join w.id))
      (ws.map (fun w => { w with thread := none })) = [] := by
  induction ws with
  | nil => rfl
  | cons w t ih => simp [List.filterMap_cons, ih]

/-- C5: dropping a pool of `N` workers emits exactly `N` `Terminate` sends —
one per worker, in worker order — followed only by join events, so every
`Terminate` send happens before any worker is joined. -/
theorem drop_sends_terminates_before_joins (p : ThreadPool) :
    ∃ js : List Event,
      p.dropTraced.2 = List.replicate p.workers.length Event.sendTerminate ++ js ∧
      ∀ e ∈ js, ∃ i, e = Event.join i := by
  refine ⟨p.workers.filterMap (fun w => w.thread.map (fun _ => Event.join w.id)),
    ?_, ?_⟩
  · unfold ThreadPool.dropTraced
    rw [map_const_terminate]
  · intro e he
    rw [List.mem_filterMap] at he
    obtain ⟨w, hw, hmap⟩ := he
    cases ht : w.thread with
    | none =>
      rw [ht] at hmap
      simp at hmap
    | some u =>
      rw [ht] at hmap
      simp at hmap
      exact ⟨w.id, hmap.symm⟩

/-- Witness for C5 on a two-worker pool: two `Terminate` sends come first. -/
theorem drop_sends_terminates_before_joins_witness :
    ∃ js : List Event,
      (⟨[Worker.new 0, Worker.new 1]⟩ : ThreadPool).dropTraced.2 =
        List.replicate 2 Event.sendTerminate ++ js ∧
      ∀ e ∈ js, ∃ i, e = Event.join i :=
  drop_sends_terminates_before_joins ⟨[Worker.new 0, Worker.new 1]⟩

/-- C6: dropping a freshly constructed pool of `size` workers joins exactly
the ids `0, 1, ..., size-1`, in id order — each joined exactly once, and
shutdown's trace ends only after all `size` joins.  After that drop every
thread handle has been taken, so a second drop joins nothing: no worker is
ever joined twice. -/
theorem shutdown_joins_each_worker_once (size : Nat) (p : ThreadPool)
    (h : ThreadPool.new size = some p) :
    p.dropTraced.2.filterMap joinId = List.range size ∧
    p.dropTraced.1.dropTraced.2.filterMap joinId = [] := by
  obtain ⟨hpos, hp⟩ := (new_some_iff size p).mp h
  subst hp
  constructor
  · simp only [ThreadPool.dropTraced]
    rw [List.filterMap_append, map_const_terminate, filterMap_joinId_replicate,
      fresh_joins, filterMap_joinId_joins]
    simp
  · simp only [ThreadPool.dropTraced]
    rw [List.filterMap_append, map_const_terminate, filterMap_joinId_replicate,
      taken_joins]
    simp

/-- Witness for C6 on a fresh two-worker pool: the joined ids are `[0, 1]`. -/
theorem shutdown_joins_each_worker_once_witness :
    (⟨[Worker.new 0, Worker.new 1]⟩ : ThreadPool).dropTraced.2.filterMap joinId =
      List.range 2 :=
  (shutdown_joins_each_worker_once 2 ⟨[Worker.new 0, Worker.new 1]⟩ (by decide)).1

lemma deliveries_zip (ws : List Nat) : ∀ ch : Channel,
    (deliveries ch ws).1 = ws.zip ch.queue ∧
    (deliveries ch ws).2.queue = ch.queue.drop ws.length := by
  induction ws with
  | nil =>
    intro ch
    simp [deliveries]
  | cons w ws ih =>
    intro ch
    cases hq : ch.queue with
    | nil => simp [deliveries, Channel.receive, hq]
    | cons m ms =>
      have h2 := ih { ch with queue := ms }
      simp [deliveries, Channel.receive, hq, h2.1, h2.2]

lemma map_snd_zip_take (ws : List Nat) : ∀ q : List Message,
    (ws.zip q).map Prod.snd = q.take ws.length := by
  induction ws with
  | nil =>
    intro q
    simp
  | cons w ws ih =>
    intro q
    cases q with
    | nil => simp
    | cons m ms => simp [ih]

/-- C8: receives through the mutex are serialized, so given the order `ws` in
which workers win the lock, the `k`-th queued message goes to exactly the
`k`-th receiving worker and to no one else (`zip`), delivery follows the
global FIFO order of the queue (`take`), and a delivered message is removed
from the queue (`drop`), so no message is ever observed by two workers. -/
theorem receive_fifo_exclusive (q : List Message) (alive : Bool) (ws : List Nat) :
    (deliveries ⟨q, alive⟩ ws).1 = ws.zip q ∧
    (deliveries ⟨q, alive⟩ ws).1.map Prod.snd = q.take ws.length ∧
    (deliveries ⟨q, alive⟩ ws).2.queue = q.drop ws.length := by
  have h := deliveries_zip ws ⟨q, alive⟩
  refine ⟨h.1, ?_, h.2⟩
  rw [h.1]
  exact map_snd_zip_take ws q

/-- Witness for C8: two queued jobs delivered to workers 4 then 7, in order. -/
theorem receive_fifo_exclusive_witness :
    (deliveries ⟨[Message.NewJob 1, Message.NewJob 2], true⟩ [4, 7]).1 =
      [4, 7].zip [Message.NewJob 1, Message.NewJob 2] :=
  (receive_fifo_exclusive [Message.NewJob 1, Message.NewJob 2] true [4, 7]).1

lemma isPrefixOf_congr_take (pre : List Nat) : ∀ l1 l2 : List Nat,
    l1.take pre.length = l2.take pre.length →
    pre.isPrefixOf l1 = pre.isPrefixOf l2 := by
  induction pre with
  | nil =>
    intro l1 l2 h
    cases l1 <;> cases l2 <;> rfl
  | cons a as ih =>
    intro l1 l2 h
    cases l1 with
    | nil =>
      cases l2 with
      | nil => rfl
      | cons c cs => simp [List.take] at h
    | cons b bs =>
      cases l2 with
      | nil => simp [List.take] at h
      | cons c cs =>
        simp [List.take] at h
        obtain ⟨hbc, ht⟩ := h
        subst hbc
        simp [List.isPrefixOf, ih bs cs ht]

lemma isPrefixOf_append_self (pre : List Nat) :
    ∀ rest : List Nat, pre.isPrefixOf (pre ++ rest) = true := by
  induction pre with
  | nil =>
    intro rest
    cases rest <;> rfl
  | cons a as ih =>
    intro rest
    simp [List.isPrefixOf, ih]

/-- C9: `handle_connection` answers `200 OK` with `hello.html` exactly when
the buffer starts with `b"GET / HTTP/1.1\r\n"`, and `404 NOT FOUND` with
`404.html` for every other buffer; the decision reads only the first 16
bytes, so everything after that prefix is ignored, and the response written
is the chosen status line followed by the chosen file's contents. -/
theorem handle_connection_prefix_decision (buffer : List Nat) :
    (handleDecision buffer = ("HTTP/1.1 200 OK\r\n\r\n", "hello.html") ↔
        getBytes.isPrefixOf buffer = true) ∧
    (getBytes.isPrefixOf buffer = false →
        handleDecision buffer = ("HTTP/1.1 404 NOT FOUND\r\n\r\n", "404.html")) ∧
    (∀ b2 : List Nat, buffer.take 16 = b2.take 16 →
        handleDecision buffer = handleDecision b2) ∧
    (∀ rest : List Nat,
        handleDecision (getBytes ++ rest) =
          ("HTTP/1.1 200 OK\r\n\r\n", "hello.html")) ∧
    (∀ readFile : String → String,
        handle_connection readFile buffer =
          (handleDecision buffer).1 ++ readFile (handleDecision buffer).2) := by
  refine ⟨?_, ?_, ?_, ?_, fun _ => rfl⟩
  · cases hpre : getBytes.isPrefixOf buffer <;> simp [handleDecision, hpre]
  · intro hpre
    simp [handleDecision, hpre]
  · intro b2 h
    unfold handleDecision
    rw [isPrefixOf_congr_take getBytes buffer b2 h]
  · intro rest
    simp [handleDecision, isPrefixOf_append_self]

/-- Witness for C9: a buffer that is exactly the GET request line gets 200. -/
theorem handle_connection_prefix_decision_witness :
    handleDecision getBytes = ("HTTP/1.1 200 OK\r\n\r\n", "hello.html") :=
  (handle_connection_prefix_decision getBytes).1.mpr (by decide)

/-- C10: the mutex is held only for the receive itself.  Whenever worker `w`
completes the receive statement (the step that dequeues a message and, on
`NewJob j`, moves `w` to `running j`), the lock is already free in the
resulting state — the `MutexGuard` temporary died with the statement, before
the job body runs — so any other worker still waiting can immediately
acquire the lock and pull the next job while `w` runs its job. -/
theorem lock_released_before_job (s s2 : Sys) (w : Nat)
    (h : s.recvStep w = some s2) :
    s2.lockHolder = none ∧
    (∀ (j : Job) (rest : List Message),
        s.chan.queue = Message.NewJob j :: rest →
        s2.phases = s.phases.set w (Phase.running j) ∧ s2.chan.queue = rest) ∧
    (∀ u, s2.phases[u]? = some Phase.waiting → (s2.acquire u).isSome = true) := by
  unfold Sys.recvStep at h
  by_cases hc : s.lockHolder = some w ∧ s.phases[w]? = some Phase.locked
  · rw [if_pos hc] at h
    cases hq : s.chan.queue with
    | nil =>
      unfold Channel.receive at h
      rw [hq] at h
      simp at h
    | cons m rest0 =>
      unfold Channel.receive at h
      rw [hq] at h
      simp at h
      refine ⟨?_, ?_, ?_⟩
      · rw [← h]
      · intro j rest hqe
        injection hqe with hm hrest
        subst hm
        subst hrest
        rw [← h]
        exact ⟨rfl, rfl⟩
      · intro u hu
        unfold Sys.acquire
        rw [if_pos ⟨by rw [← h], hu⟩]
        rfl
  · rw [if_neg hc] at h
    cases h

/-- Witness for C10: worker 0 holds the lock, receives `NewJob 7`, and in the
resulting state the lock is free and waiting worker 1 can acquire it. -/
theorem lock_released_before_job_witness :
    (⟨none, ⟨[], true⟩, [Phase.running 7, Phase.waiting]⟩ : Sys).lockHolder = none ∧
    (∀ (j : Job) (rest : List Message),
        (⟨some 0, ⟨[Message.NewJob 7], true⟩,
            [Phase.locked, Phase.waiting]⟩ : Sys).chan.queue =
          Message.NewJob j :: rest →
        (⟨none, ⟨[], true⟩, [Phase.running 7, Phase.waiting]⟩ : Sys).phases =
            [Phase.locked, Phase.waiting].set 0 (Phase.running j) ∧
          (⟨none, ⟨[], true⟩, [Phase.running 7, Phase.waiting]⟩ : Sys).chan.queue =
            rest) ∧
    (∀ u,
        (⟨none, ⟨[], true⟩, [Phase.running 7, Phase.waiting]⟩ : Sys).phases[u]? =
          some Phase.waiting →
        ((⟨none, ⟨[], true⟩,
            [Phase.running 7, Phase.waiting]⟩ : Sys).acquire u).isSome = true) :=
  lock_released_before_job
    ⟨some 0, ⟨[Message.NewJob 7], true⟩, [Phase.locked, Phase.waiting]⟩
    ⟨none, ⟨[], true⟩, [Phase.running 7, Phase.waiting]⟩ 0 (by decide)

end RustServer
